import Mathlib

/-!
Verification development for the UE4 Target System plugin
(`TargetSystemComponent`). The repository ships only the component header
`TargetSystemComponent.h`: the entry points (`TargetActor`, `TargetLockOff`,
`TargetActorWithAxisInput`, `TickComponent`), the selector helpers
(`FindNearestTarget`, `FindTargetsInRange`), the rotation helper
(`GetControlRotationOnTarget`) and the configuration/state fields are
declared there, with their semantics documented in the header comments and
in the accompanying specification. The function bodies are not part of the
sources, so every behavioural definition below is modelled from the spec
(each doc comment says so explicitly) and checked against the spec's claims.

Scalar quantities (distances, angles, times) are modelled as rationals so
that every definition is executable and every predicate decidable. Actors
are modelled by the geometric attributes the targeting logic consumes: a
distance to the viewer, a signed angle to the reference forward direction,
and the targetable capability flag.
-/

namespace TargetSystem

/-- Modelled from the spec: an Actor Handle — an opaque reference to a world
entity, carrying the attributes the core consumes: distance to the viewer
(world position reduced to the geometry the selectors use), signed angle to
the reference forward direction (left negative, right positive), and the
"targetable" capability flag. -/
structure Actor where
  id : Nat
  dist : ℚ
  angle : ℚ
  targetable : Bool
deriving DecidableEq, Repr

/-- Modelled from the spec: outbound events `onTargetLockedOn` /
`onTargetLockedOff` emitted for the presentation adapter. -/
inductive Event where
  | lockedOn (a : Actor)
  | lockedOff (a : Actor)
deriving DecidableEq, Repr

/-- Modelled from the spec: the caller-supplied, immutable configuration —
minimum engage distance (`MinimumDistanceToEnable`), maximum engage distance,
line-of-sight break delay (`BreakLineOfSightDelay`), switch threshold
(`StartRotatingThreshold`), switch-lockout delay, rotation-control toggle
(`bShouldControlRotation`), and the pitch-compensation coefficients and
clamp bounds of the `Pitch Offset` category. -/
structure Config where
  minDist : ℚ
  maxDist : ℚ
  losBreakDelay : ℚ
  switchThreshold : ℚ
  switchLockoutDelay : ℚ
  shouldControlRotation : Bool
  adjustPitch : Bool
  pitchCoeff : ℚ
  pitchOffset : ℚ
  pitchMin : ℚ
  pitchMax : ℚ
deriving DecidableEq, Repr

/-- Modelled from the spec: `FindTargetsInRange` / `filterInRange` keeps the
actors whose distance to the viewer lies in the closed interval
`[RangeMin, RangeMax]`, preserving input order. -/
def FindTargetsInRange (actors : List Actor) (rangeMin rangeMax : ℚ) : List Actor :=
  actors.filter (fun a => decide (rangeMin ≤ a.dist) && decide (a.dist ≤ rangeMax))

/-- Helper for `FindNearestTarget`: left fold over the remaining candidates
keeping the current best; a later candidate replaces the best only when it is
strictly closer, so the first of several equidistant candidates wins. -/
def nearestFrom (best : Actor) : List Actor → Actor
  | [] => best
  | b :: rest => nearestFrom (if b.dist < best.dist then b else best) rest

/-- Modelled from the spec: `FindNearestTarget` / `nearest` returns the actor
with minimum distance, ties broken by input order (first wins); `none` on
empty input. -/
def FindNearestTarget : List Actor → Option Actor
  | [] => none
  | a :: rest => some (nearestFrom a rest)

/-- Modelled from the spec: whether a signed angle points in the requested
switch direction (`right = true` means positive sign). -/
def matchesDirection (right : Bool) (angle : ℚ) : Bool :=
  if right then decide (0 < angle) else decide (angle < 0)

/-- Modelled from the spec: a switch candidate qualifies when its signed
angle has the requested sign and its absolute angle strictly exceeds the
configured switch threshold. -/
def qualifies (right : Bool) (threshold : ℚ) (a : Actor) : Bool :=
  matchesDirection right a.angle && decide (threshold < |a.angle|)

/-- Helper for `bestByAngle`: keeps the candidate of smallest absolute
angle, the earlier one on ties. -/
def bestAngleFrom (best : Actor) : List Actor → Actor
  | [] => best
  | b :: rest => bestAngleFrom (if |b.angle| < |best.angle| then b else best) rest

/-- Modelled from the spec: `bestByAngle` — among the actors whose signed
angle matches the requested direction and whose absolute angle exceeds the
threshold, returns the one with smallest absolute angle; `none` when no
candidate qualifies. -/
def bestByAngle (actors : List Actor) (right : Bool) (threshold : ℚ) : Option Actor :=
  match actors.filter (qualifies right threshold) with
  | [] => none
  | a :: rest => some (bestAngleFrom a rest)

/-- Modelled from the spec: `TargetIsTargetable` together with the liveness
check — the actor satisfies the class/capability filter and is still part of
the live world. -/
def validTarget (world : List Actor) (a : Actor) : Prop :=
  a ∈ world ∧ a.targetable = true

instance (world : List Actor) (a : Actor) : Decidable (validTarget world a) :=
  inferInstanceAs (Decidable (_ ∧ _))

/-- Modelled from the spec: the Lock Session owned by the state machine —
current target, locked flag (`bTargetLocked`), the two transient sub-state
flags (`bIsSwitchingTarget`, `bIsBreakingLineOfSight`), the two cooperative
countdown timers (line-of-sight break, switch lockout; `none` = inactive),
the distance recorded at lock, the two character-movement orientation flags
(`bUseControllerRotationYaw`, `bOrientRotationToMovement`) and the values
they held before the lock toggled them (`none` when no toggle is pending). -/
structure Session where
  target : Option Actor
  locked : Bool
  switching : Bool
  breakingLOS : Bool
  losTimer : Option ℚ
  switchTimer : Option ℚ
  distAtLock : ℚ
  useCtrlRotYaw : Bool
  orientToMovement : Bool
  savedFlags : Option (Bool × Bool)
deriving DecidableEq, Repr

/-- Modelled from the spec: the Lock Session is created empty at character
spawn — `Unlocked`, no target, no timers, orientation flags as the character
had them. -/
def initSession (y m : Bool) : Session :=
  { target := none, locked := false, switching := false, breakingLOS := false
    losTimer := none, switchTimer := none, distAtLock := 0
    useCtrlRotYaw := y, orientToMovement := m, savedFlags := none }

/-- Modelled from the spec: `TargetLockOff` / `requestUnlock` — always
succeeds regardless of state: clears the target, cancels both timers, leaves
both transient sub-states, restores the orientation flags to their pre-lock
values when the lock had toggled them, and emits the locked-off notification
when a target was actually locked. -/
def TargetLockOff (s : Session) : Session × List Event :=
  let restored := match s.savedFlags with
    | some p => p
    | none => (s.useCtrlRotYaw, s.orientToMovement)
  let events := match s.target with
    | some t => if s.locked then [Event.lockedOff t] else []
    | none => []
  ({ target := none, locked := false, switching := false, breakingLOS := false
     losTimer := none, switchTimer := none, distAtLock := 0
     useCtrlRotYaw := restored.1, orientToMovement := restored.2
     savedFlags := none }, events)

/-- Modelled from the spec: the candidate set for acquisition — all
targetable actors within `[MinimumDistanceToEnable, effective max range]`
of the viewer, produced fresh from the live world. -/
def candidatesOf (cfg : Config) (world : List Actor) : List Actor :=
  FindTargetsInRange (world.filter (fun a => a.targetable)) cfg.minDist cfg.maxDist

/-- Modelled from the spec: entering `Locked` on a freshly selected target —
set the target, record its distance, clear both transient sub-states and
both debounce timers, and, when `bShouldControlRotation` is set, toggle the
two character-movement orientation flags, remembering their prior values. -/
def lockOn (cfg : Config) (t : Actor) (s : Session) : Session :=
  { target := some t, locked := true, switching := false, breakingLOS := false
    losTimer := none, switchTimer := none, distAtLock := t.dist
    useCtrlRotYaw := if cfg.shouldControlRotation then true else s.useCtrlRotYaw
    orientToMovement := if cfg.shouldControlRotation then false else s.orientToMovement
    savedFlags :=
      if cfg.shouldControlRotation then some (s.useCtrlRotYaw, s.orientToMovement)
      else s.savedFlags }

/-- Modelled from the spec: the acquisition step of `Unlocked -> Locked` —
select the nearest candidate; when none is found remain as we are and fire
no event, otherwise lock on and emit the locked-on notification. -/
def acquire (cfg : Config) (world : List Actor) (s : Session) : Session × List Event :=
  match FindNearestTarget (candidatesOf cfg world) with
  | none => (s, [])
  | some t => (lockOn cfg t s, [Event.lockedOn t])

/-- Modelled from the spec: `TargetActor` / `requestLock` — re-acquisition
while already locked onto a still-valid, still-visible target is a no-op;
otherwise any stale lock is dropped and a fresh acquisition is performed. -/
def TargetActor (cfg : Config) (world : List Actor) (visible : Actor → Bool)
    (s : Session) : Session × List Event :=
  match s.target with
  | some t =>
    if s.locked then
      if validTarget world t ∧ visible t = true then (s, [])
      else
        let u := TargetLockOff s
        let a := acquire cfg world u.1
        (a.1, u.2 ++ a.2)
    else acquire cfg world s
  | none => acquire cfg world s

/-- Modelled from the spec: `TargetActorWithAxisInput` / `requestAxisSwitch` —
a switch is triggered only while locked, only while the switch-lockout timer
is inactive, and only when the instantaneous product `AxisValue * Delta`
crosses `StartRotatingThreshold` in magnitude; the candidate set excludes the
current target, the requested direction is the input's sign, and on success
the target is replaced atomically, the lockout timer restarts and locked-off
then locked-on are emitted. Entering the switching sub-state leaves any
line-of-sight-break sub-state. -/
def TargetActorWithAxisInput (cfg : Config) (world : List Actor)
    (axisValue delta : ℚ) (s : Session) : Session × List Event :=
  match s.target with
  | none => (s, [])
  | some cur =>
    if s.locked ∧ s.switchTimer = none ∧ cfg.switchThreshold < |axisValue * delta| then
      let cands := world.filter (fun a => a.targetable && a ≠ cur)
      match bestByAngle cands (decide (0 < axisValue)) cfg.switchThreshold with
      | none => (s, [])
      | some t =>
        ({ s with
           target := some t, switching := true, breakingLOS := false,
           losTimer := none, switchTimer := some cfg.switchLockoutDelay,
           distAtLock := t.dist },
         [Event.lockedOff cur, Event.lockedOn t])
    else (s, [])

/-- Modelled from the spec: the out-of-reach condition documented on
`OnTargetLockedOff` — the locked target is out of reach when its distance
leaves the engage range whose lower bound is `MinimumDistanceToEnable`. -/
def outOfReach (cfg : Config) (a : Actor) : Prop :=
  a.dist < cfg.minDist ∨ cfg.maxDist < a.dist

instance (cfg : Config) (a : Actor) : Decidable (outOfReach cfg a) :=
  inferInstanceAs (Decidable (_ ∨ _))

/-- Modelled from the spec: `TickComponent` — while locked, in order: the
validity check (an invalid target forces unlock), the out-of-reach check
(documented on `OnTargetLockedOff`), then the visibility check driving the
line-of-sight-break sub-state: on lost sight the break countdown starts from
`BreakLineOfSightDelay` and is decremented by the tick delta, forcing the
unlock once it runs out; recovered sight cancels it. The switch-lockout
countdown is likewise decremented, releasing the switching sub-state on
expiry. Outside `Locked` the tick does nothing. -/
def TickComponent (cfg : Config) (world : List Actor) (visible : Bool)
    (dt : ℚ) (s : Session) : Session × List Event :=
  if s.locked then
    match s.target with
    | none => (s, [])
    | some t =>
      if ¬ validTarget world t then TargetLockOff s
      else if outOfReach cfg t then TargetLockOff s
      else if visible = false then
        let rem := (s.losTimer.getD cfg.losBreakDelay) - dt
        if rem ≤ 0 then TargetLockOff s
        else ({ s with
                losTimer := some rem, breakingLOS := true,
                switching := false, switchTimer := none }, [])
      else
        let s1 := { s with losTimer := none, breakingLOS := false }
        match s.switchTimer with
        | none => (s1, [])
        | some r =>
          if r - dt ≤ 0 then ({ s1 with switchTimer := none, switching := false }, [])
          else ({ s1 with switchTimer := some (r - dt) }, [])
  else (s, [])

/-- Modelled from the spec: one run of consecutive ticks, threading the
session and concatenating the emitted events; each entry of the list is the
visibility observed that tick and the tick's delta time. -/
def tickRun (cfg : Config) (world : List Actor) :
    List (Bool × ℚ) → Session → Session × List Event
  | [], s => (s, [])
  | (v, dt) :: rest, s =>
    let step := TickComponent cfg world v dt s
    let further := tickRun cfg world rest step.1
    (further.1, step.2 ++ further.2)

/-- Modelled from the spec: a rotation reduced to the two components the
rotation controller produces (zero roll). -/
structure Rotator where
  pitch : ℚ
  yaw : ℚ
deriving DecidableEq, Repr

/-- Modelled from the spec: the raw compensated pitch, per the header
comment of the `Pitch Offset` category — `(DistanceToTarget *
PitchDistanceCoefficient + PitchDistanceOffset) * -1`. -/
def rawPitch (cfg : Config) (distanceToTarget : ℚ) : ℚ :=
  (distanceToTarget * cfg.pitchCoeff + cfg.pitchOffset) * (-1)

/-- Clamp of a value into `[lo, hi]`, as `FMath::Clamp` behaves. -/
def clampQ (v lo hi : ℚ) : ℚ :=
  if v < lo then lo else if hi < v then hi else v

/-- Modelled from the spec: `GetControlRotationOnTarget` — the look-at
rotation toward the target; when `bAdjustPitchBasedOnDistanceToTarget` is
set the pitch is replaced by the compensated pitch clamped into
`[PitchMin, PitchMax]`, keeping the raw look-at yaw. -/
def GetControlRotationOnTarget (cfg : Config) (lookAt : Rotator)
    (distanceToTarget : ℚ) : Rotator :=
  if cfg.adjustPitch then
    { pitch := clampQ (rawPitch cfg distanceToTarget) cfg.pitchMin cfg.pitchMax
      yaw := lookAt.yaw }
  else lookAt

/-! ### Selector lemmas -/

lemma nearestFrom_spec (l : List Actor) (best : Actor) :
    (nearestFrom best l = best ∧ ∀ b ∈ l, best.dist ≤ b.dist) ∨
    (∃ i, i < l.length ∧ l.get? i = some (nearestFrom best l) ∧
      (nearestFrom best l).dist < best.dist ∧
      (∀ b ∈ l, (nearestFrom best l).dist ≤ b.dist) ∧
      (∀ b ∈ l.take i, (nearestFrom best l).dist < b.dist)) := by
  induction l generalizing best with
  | nil =>
    left
    exact ⟨rfl, by simp⟩
  | cons b rest ih =>
    by_cases hb : b.dist < best.dist
    · have hstep : nearestFrom best (b :: rest) = nearestFrom b rest := by
        simp [nearestFrom, hb]
      rcases ih b with ⟨heq, hmin⟩ | ⟨i, hi, hget, hlt, hmin, hfirst⟩
      · right
        refine ⟨0, by simp, ?_, ?_, ?_, ?_⟩
        · simp [hstep, heq]
        · rw [hstep, heq]; exact hb
        · intro c hc
          rw [hstep, heq]
          rcases List.mem_cons.mp hc with h | h
          · subst h; exact le_refl _
          · exact hmin c h
        · simp
      · right
        refine ⟨i + 1, by simpa using Nat.succ_lt_succ hi, ?_, ?_, ?_, ?_⟩
        · simpa [hstep] using hget
        · rw [hstep]; exact hlt.trans hb
        · intro c hc
          rw [hstep]
          rcases List.mem_cons.mp hc with h | h
          · subst h; exact hlt.le
          · exact hmin c h
        · intro c hc
          rw [List.take_succ_cons] at hc
          rcases List.mem_cons.mp hc with h | h
          · subst h; rw [hstep]; exact hlt
          · rw [hstep]; exact hfirst c h
    · have hb' : best.dist ≤ b.dist := not_lt.mp hb
      have hstep : nearestFrom best (b :: rest) = nearestFrom best rest := by
        simp [nearestFrom, hb]
      rcases ih best with ⟨heq, hmin⟩ | ⟨i, hi, hget, hlt, hmin, hfirst⟩
      · left
        refine ⟨hstep.trans heq, ?_⟩
        intro c hc
        rcases List.mem_cons.mp hc with h | h
        · subst h; exact hb'
        · exact hmin c h
      · right
        refine ⟨i + 1, by simpa using Nat.succ_lt_succ hi, ?_, ?_, ?_, ?_⟩
        · simpa [hstep] using hget
        · rw [hstep]; exact hlt
        · intro c hc
          rw [hstep]
          rcases List.mem_cons.mp hc with h | h
          · subst h; exact hlt.le.trans hb'
          · exact hmin c h
        · intro c hc
          rw [List.take_succ_cons] at hc
          rcases List.mem_cons.mp hc with h | h
          · subst h; rw [hstep]; exact hlt.trans_le hb'
          · rw [hstep]; exact hfirst c h

lemma findNearestTarget_first_min (l : List Actor) (a : Actor)
    (h : FindNearestTarget l = some a) :
    ∃ i, i < l.length ∧ l.get? i = some a ∧
      (∀ b ∈ l, a.dist ≤ b.dist) ∧ (∀ b ∈ l.take i, a.dist < b.dist) := by
  match l with
  | [] => simp [FindNearestTarget] at h
  | c :: rest =>
    have hres : nearestFrom c rest = a := by
      simpa [FindNearestTarget] using h
    rcases nearestFrom_spec rest c with ⟨heq, hmin⟩ | ⟨i, hi, hget, hlt, hmin, hfirst⟩
    · refine ⟨0, by simp, ?_, ?_, ?_⟩
      · rw [← hres, heq]; rfl
      · intro b hb
        rw [← hres, heq]
        rcases List.mem_cons.mp hb with hh | hh
        · subst hh; exact le_refl _
        · exact hmin b hh
      · simp
    · refine ⟨i + 1, by simpa using Nat.succ_lt_succ hi, ?_, ?_, ?_⟩
      · rw [← hres]; simpa using hget
      · intro b hb
        rw [← hres]
        rcases List.mem_cons.mp hb with hh | hh
        · subst hh; exact hlt.le
        · exact hmin b hh
      · intro b hb
        rw [List.take_succ_cons] at hb
        rcases List.mem_cons.mp hb with hh | hh
        · subst hh; rw [← hres]; exact hlt
        · rw [← hres]; exact hfirst b hh

lemma bestAngleFrom_min (l : List Actor) (best : Actor) :
    |(bestAngleFrom best l).angle| ≤ |best.angle| ∧
    ∀ b ∈ l, |(bestAngleFrom best l).angle| ≤ |b.angle| := by
  induction l generalizing best with
  | nil => exact ⟨le_refl _, by simp⟩
  | cons b rest ih =>
    by_cases hb : |b.angle| < |best.angle|
    · have hstep : bestAngleFrom best (b :: rest) = bestAngleFrom b rest := by
        simp [bestAngleFrom, hb]
      rcases ih b with ⟨h1, h2⟩
      refine ⟨?_, ?_⟩
      · rw [hstep]; exact h1.trans hb.le
      · intro c hc
        rw [hstep]
        rcases List.mem_cons.mp hc with h | h
        · subst h; exact h1
        · exact h2 c h
    · have hstep : bestAngleFrom best (b :: rest) = bestAngleFrom best rest := by
        simp [bestAngleFrom, hb]
      rcases ih best with ⟨h1, h2⟩
      refine ⟨?_, ?_⟩
      · rw [hstep]; exact h1
      · intro c hc
        rw [hstep]
        rcases List.mem_cons.mp hc with h | h
        · subst h; exact h1.trans (not_lt.mp hb)
        · exact h2 c h

lemma bestAngleFrom_mem (l : List Actor) (best : Actor) :
    bestAngleFrom best l = best ∨ bestAngleFrom best l ∈ l := by
  induction l generalizing best with
  | nil => left; rfl
  | cons b rest ih =>
    by_cases hb : |b.angle| < |best.angle|
    · have hstep : bestAngleFrom best (b :: rest) = bestAngleFrom b rest := by
        simp [bestAngleFrom, hb]
      rcases ih b with h | h
      · right; rw [hstep, h]; exact List.mem_cons_self b rest
      · right; rw [hstep]; exact List.mem_cons_of_mem b h
    · have hstep : bestAngleFrom best (b :: rest) = bestAngleFrom best rest := by
        simp [bestAngleFrom, hb]
      rcases ih best with h | h
      · left; rw [hstep, h]
      · right; rw [hstep]; exact List.mem_cons_of_mem b h

/-! ### Sample data for the concrete spec scenarios -/

/-- A configuration with the header's default pitch values, a 10-unit
minimum engage distance and a 5-degree switch threshold, used by the
concrete spec scenarios. -/
def sampleCfg : Config :=
  { minDist := 10, maxDist := 1000, losBreakDelay := 5, switchThreshold := 5
    switchLockoutDelay := 1/2, shouldControlRotation := true, adjustPitch := true
    pitchCoeff := -1/5, pitchOffset := 90, pitchMin := -50, pitchMax := -20 }

/-- Candidate at distance 50, signed angle +10°. -/
def actorA : Actor := ⟨0, 50, 10, true⟩

/-- Candidate at distance 30, signed angle +40°. -/
def actorB : Actor := ⟨1, 30, 40, true⟩

/-- Candidate at distance 80, signed angle −15°. -/
def actorC : Actor := ⟨2, 80, -15, true⟩

/-- Candidate at signed angle +3°, below the 5° threshold. -/
def actorD : Actor := ⟨3, 60, 3, true⟩

/-! ### Claims -/

/-- C1: initial acquisition selects the candidate with minimum distance to
the viewer, ties broken by input order (first wins); on the empty candidate
sequence the selection is `none` and the session remains `Unlocked` with no
locked-on event fired. -/
theorem targetActor_acquires_nearest (l : List Actor) (cfg : Config)
    (world : List Actor) (visible : Actor → Bool) (s : Session) :
    (FindNearestTarget ([] : List Actor) = none) ∧
    (l ≠ [] → ∃ a, FindNearestTarget l = some a) ∧
    (∀ a, FindNearestTarget l = some a →
      ∃ i, i < l.length ∧ l.get? i = some a ∧
        (∀ b ∈ l, a.dist ≤ b.dist) ∧ (∀ b ∈ l.take i, a.dist < b.dist)) ∧
    (s.locked = false → candidatesOf cfg world = [] →
      TargetActor cfg world visible s = (s, [])) := by
  refine ⟨rfl, ?_, ?_, ?_⟩
  · intro hne
    match l with
    | [] => exact absurd rfl hne
    | a :: rest => exact ⟨nearestFrom a rest, rfl⟩
  · intro a ha
    exact findNearestTarget_first_min l a ha
  · intro hs hc
    have hacq : acquire cfg world s = (s, []) := by
      simp [acquire, hc, FindNearestTarget]
    cases ht : s.target with
    | none => simp [TargetActor, ht, hacq]
    | some t => simp [TargetActor, ht, hs, hacq]

/-- Concrete instance of C1: with candidates at distances {50, 30, 80} the
acquisition selection is the distance-30 candidate, and an acquisition over
an empty world is a no-op from `Unlocked`. -/
theorem targetActor_acquires_nearest_witness :
    (∃ a, FindNearestTarget [actorA, actorB, actorC] = some a) ∧
    FindNearestTarget [actorA, actorB, actorC] = some actorB ∧
    TargetActor sampleCfg [] (fun _ => true) (initSession false false) =
      (initSession false false, []) := by
  refine ⟨?_, by decide, ?_⟩
  · exact (targetActor_acquires_nearest [actorA, actorB, actorC] sampleCfg []
      (fun _ => true) (initSession false false)).2.1 (by decide)
  · exact (targetActor_acquires_nearest [] sampleCfg []
      (fun _ => true) (initSession false false)).2.2.2 rfl (by decide)

/-- C2: the axis-switch selection considers only candidates whose signed
angle matches the requested sign and whose absolute angle strictly exceeds
the threshold, returning among those the one of smallest absolute angle;
when no candidate qualifies it returns `none` and the axis-switch request
leaves the lock on the current target. -/
theorem bestByAngle_switch_spec (l : List Actor) (right : Bool) (threshold : ℚ)
    (cfg : Config) (world : List Actor) (axisValue delta : ℚ) (s : Session) :
    (∀ a, bestByAngle l right threshold = some a →
      a ∈ l ∧ (if right then 0 < a.angle else a.angle < 0) ∧ threshold < |a.angle| ∧
      ∀ b ∈ l, (if right then 0 < b.angle else b.angle < 0) → threshold < |b.angle| →
        |a.angle| ≤ |b.angle|) ∧
    ((∀ b ∈ l, ¬ ((if right then 0 < b.angle else b.angle < 0) ∧ threshold < |b.angle|)) →
      bestByAngle l right threshold = none) ∧
    (∀ cur, s.target = some cur →
      bestByAngle (world.filter (fun a => a.targetable && a ≠ cur))
        (decide (0 < axisValue)) cfg.switchThreshold = none →
      TargetActorWithAxisInput cfg world axisValue delta s = (s, [])) := by
  have hqual : ∀ b : Actor, qualifies right threshold b = true ↔
      ((if right then 0 < b.angle else b.angle < 0) ∧ threshold < |b.angle|) := by
    intro b
    cases right <;> simp [qualifies, matchesDirection]
  refine ⟨?_, ?_, ?_⟩
  · intro a ha
    match hf : l.filter (qualifies right threshold) with
    | [] => simp [bestByAngle, hf] at ha
    | c :: rest =>
      have hres : bestAngleFrom c rest = a := by
        simpa [bestByAngle, hf] using ha
      have hmemf : a ∈ l.filter (qualifies right threshold) := by
        rw [hf]
        rcases bestAngleFrom_mem rest c with h | h
        · rw [← hres, h]; exact List.mem_cons_self c rest
        · rw [← hres]; exact List.mem_cons_of_mem c h
      have hmem := List.mem_filter.mp hmemf
      have hq := (hqual a).mp hmem.2
      refine ⟨hmem.1, hq.1, hq.2, ?_⟩
      intro b hb hsign hthr
      have hbf : b ∈ l.filter (qualifies right threshold) :=
        List.mem_filter.mpr ⟨hb, (hqual b).mpr ⟨hsign, hthr⟩⟩
      rw [hf] at hbf
      rcases bestAngleFrom_min rest c with ⟨h1, h2⟩
      rcases List.mem_cons.mp hbf with h | h
      · subst h; rw [← hres]; exact h1
      · rw [← hres]; exact h2 b h
  · intro hall
    have hf : l.filter (qualifies right threshold) = [] := by
      rw [List.filter_eq_nil_iff]
      intro b hb
      intro hq
      exact hall b hb ((hqual b).mp hq)
    simp [bestByAngle, hf]
  · intro cur hcur hnone
    simp only [ne_eq, decide_not] at hnone
    by_cases hcond : s.locked = true ∧ s.switchTimer = none ∧
        cfg.switchThreshold < |axisValue * delta|
    · simp [TargetActorWithAxisInput, hcur, hcond, hnone]
    · simp only [TargetActorWithAxisInput, hcur]
      rw [if_neg (by simpa using hcond)]

/-- Concrete instance of C2: current target at 0° with candidates at
{+10°, +40°, −15°} and threshold 5°, a right-switch selects the +10°
candidate; a lone candidate at +3° under threshold 5° yields no selection
and the axis-switch request leaves the session unchanged. -/
theorem bestByAngle_switch_spec_witness :
    bestByAngle [actorA, actorB, actorC] true 5 = some actorA ∧
    bestByAngle [actorD] true 5 = none ∧
    TargetActorWithAxisInput sampleCfg [actorB] 1 1
      (lockOn sampleCfg actorB (initSession false false)) =
      (lockOn sampleCfg actorB (initSession false false), []) := by
  refine ⟨by decide, ?_, ?_⟩
  · exact (bestByAngle_switch_spec [actorD] true 5 sampleCfg [] 1 1
      (initSession false false)).2.1 (by decide)
  · exact (bestByAngle_switch_spec [] true 5 sampleCfg [actorB] 1 1
      (lockOn sampleCfg actorB (initSession false false))).2.2 actorB rfl (by decide)

/-- C7: with pitch compensation enabled the control rotation's pitch is
`clamp((distance * PitchDistanceCoefficient + PitchDistanceOffset) * -1,
PitchMin, PitchMax)` while the yaw is the raw look-at yaw; for distance 100,
coefficient −0.2, offset 90 the raw pitch before clamping is −70. -/
theorem getControlRotation_pitch (cfg : Config) (lookAt : Rotator) (d : ℚ) :
    (cfg.adjustPitch = true →
      GetControlRotationOnTarget cfg lookAt d =
        { pitch := clampQ ((d * cfg.pitchCoeff + cfg.pitchOffset) * (-1))
            cfg.pitchMin cfg.pitchMax
          yaw := lookAt.yaw }) ∧
    (cfg.pitchCoeff = -(1/5) → cfg.pitchOffset = 90 → rawPitch cfg 100 = -70) := by
  constructor
  · intro h
    simp [GetControlRotationOnTarget, rawPitch, h]
  · intro h1 h2
    rw [rawPitch, h1, h2]
    norm_num

/-- Concrete instance of C7: at distance 100 with the default coefficient
−0.2 and offset 90 the raw pitch is −70, and the full rotation keeps the
look-at yaw while clamping the pitch into [−50, −20]. -/
theorem getControlRotation_pitch_witness :
    rawPitch sampleCfg 100 = -70 ∧
    GetControlRotationOnTarget sampleCfg ⟨0, 33⟩ 100 =
      { pitch := clampQ ((100 * sampleCfg.pitchCoeff + sampleCfg.pitchOffset) * (-1))
          sampleCfg.pitchMin sampleCfg.pitchMax
        yaw := 33 } := by
  constructor
  · exact (getControlRotation_pitch sampleCfg ⟨0, 33⟩ 100).2 (by norm_num [sampleCfg]) rfl
  · exact (getControlRotation_pitch sampleCfg ⟨0, 33⟩ 100).1 rfl

/-- C8: range filtering keeps exactly the actors whose distance lies in the
closed interval `[RangeMin, RangeMax]`, preserving input order (the result
is a sublist of the input); a candidate at distance exactly
`MinimumDistanceToEnable` is eligible for acquisition and a candidate one
unit below is not. -/
theorem findTargetsInRange_spec (l : List Actor) (lo hi : ℚ) (cfg : Config)
    (world : List Actor) (a b : Actor) :
    (∀ x, x ∈ FindTargetsInRange l lo hi ↔ x ∈ l ∧ lo ≤ x.dist ∧ x.dist ≤ hi) ∧
    (FindTargetsInRange l lo hi).Sublist l ∧
    (a ∈ world → a.targetable = true → a.dist = cfg.minDist →
      cfg.minDist ≤ cfg.maxDist → a ∈ candidatesOf cfg world) ∧
    (b.dist = cfg.minDist - 1 → b ∉ candidatesOf cfg world) := by
  refine ⟨?_, ?_, ?_, ?_⟩
  · intro x
    simp [FindTargetsInRange, List.mem_filter, and_assoc]
  · exact List.filter_sublist l
  · intro hmem htgt hd hle
    have h1 : a ∈ world.filter (fun x => x.targetable) :=
      List.mem_filter.mpr ⟨hmem, by simp [htgt]⟩
    refine List.mem_filter.mpr ⟨h1, ?_⟩
    simp [hd, hle]
  · intro hd hmem
    have h := (List.mem_filter.mp hmem).2
    simp only [Bool.and_eq_true, decide_eq_true_eq] at h
    rw [hd] at h
    linarith [h.1]

/-- Concrete instance of C8: with `MinimumDistanceToEnable = 10`, a
targetable candidate at distance exactly 10 is an acquisition candidate and
one at distance 9 is not. -/
theorem findTargetsInRange_spec_witness :
    (⟨5, 10, 0, true⟩ : Actor) ∈ candidatesOf sampleCfg [⟨5, 10, 0, true⟩] ∧
    (⟨6, 9, 0, true⟩ : Actor) ∉ candidatesOf sampleCfg [⟨6, 9, 0, true⟩] := by
  constructor
  · exact (findTargetsInRange_spec [] 0 0 sampleCfg [⟨5, 10, 0, true⟩]
      ⟨5, 10, 0, true⟩ actorA).2.2.1 (by decide) rfl (by decide) (by decide)
  · refine (findTargetsInRange_spec [] 0 0 sampleCfg [⟨6, 9, 0, true⟩]
      actorA ⟨6, 9, 0, true⟩).2.2.2 ?_
    show (9 : ℚ) = sampleCfg.minDist - 1
    norm_num [sampleCfg]

/-- C5: requesting a lock while already locked onto a still-valid,
still-visible target is idempotent — the session is unchanged and no
locked-on or locked-off event is fired. -/
theorem targetActor_idempotent (cfg : Config) (world : List Actor)
    (visible : Actor → Bool) (s : Session) (t : Actor)
    (hl : s.locked = true) (ht : s.target = some t)
    (hv : validTarget world t) (hvis : visible t = true) :
    TargetActor cfg world visible s = (s, []) := by
  simp [TargetActor, ht, hl, hv, hvis]

/-- Concrete instance of C5: re-requesting a lock on an already locked,
valid, visible target changes nothing. -/
theorem targetActor_idempotent_witness :
    TargetActor sampleCfg [actorB] (fun _ => true)
      (lockOn sampleCfg actorB (initSession false false)) =
      (lockOn sampleCfg actorB (initSession false false), []) :=
  targetActor_idempotent sampleCfg [actorB] (fun _ => true)
    (lockOn sampleCfg actorB (initSession false false)) actorB rfl rfl
    (by decide) rfl

/-- C6: from an initial `Unlocked` state, a successful lock followed by an
unlock restores the exact initial state — target `none`, both timers
cancelled, orientation flags back to their pre-lock values — and the unlock
itself always succeeds, clearing target and timers regardless of the state
it is called in. -/
theorem lock_unlock_roundtrip (cfg : Config) (world : List Actor)
    (visible : Actor → Bool) (y m : Bool) (t : Actor) (s' : Session) :
    (FindNearestTarget (candidatesOf cfg world) = some t →
      TargetLockOff (TargetActor cfg world visible (initSession y m)).1 =
        (initSession y m, [Event.lockedOff t])) ∧
    ((TargetLockOff s').1.target = none ∧ (TargetLockOff s').1.locked = false ∧
     (TargetLockOff s').1.losTimer = none ∧ (TargetLockOff s').1.switchTimer = none) := by
  constructor
  · intro hfind
    have hta : (TargetActor cfg world visible (initSession y m)).1 =
        lockOn cfg t (initSession y m) := by
      simp [TargetActor, initSession, acquire, hfind]
    rw [hta]
    by_cases hc : cfg.shouldControlRotation
    · simp [TargetLockOff, lockOn, initSession, hc]
    · simp [TargetLockOff, lockOn, initSession, hc]
  · exact ⟨rfl, rfl, rfl, rfl⟩

/-- Concrete instance of C6: locking onto the nearest candidate and then
unlocking returns the spawn state and reports the lock-off of that
candidate. -/
theorem lock_unlock_roundtrip_witness :
    TargetLockOff (TargetActor sampleCfg [actorB] (fun _ => true)
        (initSession true false)).1 =
      (initSession true false, [Event.lockedOff actorB]) :=
  (lock_unlock_roundtrip sampleCfg [actorB] (fun _ => true) true false actorB
    (initSession true false)).1 (by decide)

/-- Helper for C9: an axis-switch request whose instantaneous product does
not cross the threshold in magnitude is a no-op. -/
lemma switch_subthreshold_noop (cfg : Config) (world : List Actor)
    (axisValue delta : ℚ) (s : Session)
    (h : |axisValue * delta| ≤ cfg.switchThreshold) :
    TargetActorWithAxisInput cfg world axisValue delta s = (s, []) := by
  cases ht : s.target with
  | none => simp [TargetActorWithAxisInput, ht]
  | some cur =>
    simp only [TargetActorWithAxisInput, ht]
    rw [if_neg (fun hc => absurd hc.2.2 (not_lt.mpr h))]

/-- Modelled from the spec: a sequence of axis-switch requests applied in
order; only the final session is kept. -/
def applySwitches (cfg : Config) (world : List Actor) :
    List (ℚ × ℚ) → Session → Session
  | [], s => s
  | (av, d) :: rest, s =>
    applySwitches cfg world rest (TargetActorWithAxisInput cfg world av d s).1

/-- Helper for C9: a run of sub-threshold axis nudges leaves the session
exactly where it was. -/
lemma applySwitches_subthreshold (cfg : Config) (world : List Actor)
    (nudges : List (ℚ × ℚ)) (s : Session)
    (h : ∀ p ∈ nudges, |p.1 * p.2| ≤ cfg.switchThreshold) :
    applySwitches cfg world nudges s = s := by
  induction nudges with
  | nil => rfl
  | cons p rest ih =>
    cases p with
    | mk av d =>
      have hp : |av * d| ≤ cfg.switchThreshold := by
        simpa using h (av, d) (List.mem_cons_self _ _)
      have hrest : ∀ q ∈ rest, |q.1 * q.2| ≤ cfg.switchThreshold :=
        fun q hq => h q (List.mem_cons_of_mem _ hq)
      simp [applySwitches, switch_subthreshold_noop cfg world av d s hp, ih hrest]

/-- C9: whether an axis-switch fires depends only on the current tick's
instantaneous product `AxisValue * Delta` crossing the threshold while the
switch-lockout timer is inactive — a sub-threshold nudge is a strict no-op,
an active lockout timer blocks the switch, and any sequence of sub-threshold
nudges on earlier ticks leaves both the session and the outcome of a later
request exactly as they would have been without them. -/
theorem axis_switch_no_accumulation (cfg : Config) (world : List Actor)
    (axisValue delta : ℚ) (s : Session) (nudges : List (ℚ × ℚ)) :
    (|axisValue * delta| ≤ cfg.switchThreshold →
      TargetActorWithAxisInput cfg world axisValue delta s = (s, [])) ∧
    (∀ r, s.switchTimer = some r →
      TargetActorWithAxisInput cfg world axisValue delta s = (s, [])) ∧
    ((∀ p ∈ nudges, |p.1 * p.2| ≤ cfg.switchThreshold) →
      applySwitches cfg world nudges s = s) ∧
    ((∀ p ∈ nudges, |p.1 * p.2| ≤ cfg.switchThreshold) →
      TargetActorWithAxisInput cfg world axisValue delta
        (applySwitches cfg world nudges s) =
      TargetActorWithAxisInput cfg world axisValue delta s) := by
  refine ⟨?_, ?_, ?_, ?_⟩
  · exact switch_subthreshold_noop cfg world axisValue delta s
  · intro r hr
    cases ht : s.target with
    | none => simp [TargetActorWithAxisInput, ht]
    | some cur =>
      simp only [TargetActorWithAxisInput, ht]
      rw [if_neg (fun hc => by simp [hr] at hc)]
  · exact applySwitches_subthreshold cfg world nudges s
  · intro h
    rw [applySwitches_subthreshold cfg world nudges s h]

/-- Concrete instance of C9: two +4-magnitude nudges under threshold 5 do
not accumulate into a switch, and a later request behaves as if they had
never happened. -/
theorem axis_switch_no_accumulation_witness :
    applySwitches sampleCfg [actorA, actorB] [(4, 1), (4, 1)]
      (lockOn sampleCfg actorB (initSession false false)) =
      lockOn sampleCfg actorB (initSession false false) ∧
    TargetActorWithAxisInput sampleCfg [actorA, actorB] 4 1
      (applySwitches sampleCfg [actorA, actorB] [(4, 1), (4, 1)]
        (lockOn sampleCfg actorB (initSession false false))) =
    TargetActorWithAxisInput sampleCfg [actorA, actorB] 4 1
      (lockOn sampleCfg actorB (initSession false false)) := by
  have hsub : ∀ p ∈ [((4 : ℚ), (1 : ℚ)), (4, 1)],
      |p.1 * p.2| ≤ sampleCfg.switchThreshold := by
    simp only [List.forall_mem_cons, List.forall_mem_nil]
    norm_num [sampleCfg]
  constructor
  · exact (axis_switch_no_accumulation sampleCfg [actorA, actorB] 4 1
      (lockOn sampleCfg actorB (initSession false false)) [(4, 1), (4, 1)]).2.2.1
      hsub
  · exact (axis_switch_no_accumulation sampleCfg [actorA, actorB] 4 1
      (lockOn sampleCfg actorB (initSession false false)) [(4, 1), (4, 1)]).2.2.2
      hsub

/-- C10: while locked, the target moving out of reach — the per-tick
distance check against the engage range anchored at
`MinimumDistanceToEnable` — is itself a lock-break condition: the tick
clears the lock and fires the locked-off event. -/
theorem tick_out_of_reach_breaks_lock (cfg : Config) (world : List Actor)
    (visible : Bool) (dt : ℚ) (s : Session) (t : Actor)
    (hl : s.locked = true) (ht : s.target = some t)
    (hv : validTarget world t) (hoor : outOfReach cfg t) :
    (TickComponent cfg world visible dt s).1.locked = false ∧
    (TickComponent cfg world visible dt s).1.target = none ∧
    (TickComponent cfg world visible dt s).2 = [Event.lockedOff t] := by
  have hstep : TickComponent cfg world visible dt s = TargetLockOff s := by
    simp [TickComponent, hl, ht, hv, hoor]
  rw [hstep]
  simp [TargetLockOff, ht, hl]

/-- Concrete instance of C10: a locked target drifting to distance 2000,
beyond the engage range, is dropped by the next tick with a locked-off
event. -/
theorem tick_out_of_reach_breaks_lock_witness :
    (TickComponent sampleCfg [⟨7, 2000, 0, true⟩] true 1
      (lockOn sampleCfg ⟨7, 2000, 0, true⟩ (initSession false false))).2 =
      [Event.lockedOff ⟨7, 2000, 0, true⟩] :=
  (tick_out_of_reach_breaks_lock sampleCfg [⟨7, 2000, 0, true⟩] true 1
    (lockOn sampleCfg ⟨7, 2000, 0, true⟩ (initSession false false))
    ⟨7, 2000, 0, true⟩ rfl rfl (by decide) (by decide)).2.2

/-! ### Reachability and the sub-state mutual-exclusion invariant -/

/-- Modelled from the spec: one inbound operation of the core's boundary
(`requestLock`, `requestUnlock`, `requestAxisSwitch`, `tick`). -/
inductive Op where
  | lock (world : List Actor) (visible : Actor → Bool)
  | unlock
  | axis (world : List Actor) (axisValue delta : ℚ)
  | tickOp (world : List Actor) (visible : Bool) (dt : ℚ)

/-- Modelled from the spec: the session resulting from one inbound
operation. -/
def applyOp (cfg : Config) (s : Session) : Op → Session
  | Op.lock world visible => (TargetActor cfg world visible s).1
  | Op.unlock => (TargetLockOff s).1
  | Op.axis world av d => (TargetActorWithAxisInput cfg world av d s).1
  | Op.tickOp world v dt => (TickComponent cfg world v dt s).1

/-- Modelled from the spec: the sessions reachable from the spawn state by
inbound operations. -/
inductive Reachable (cfg : Config) : Session → Prop where
  | init (y m : Bool) : Reachable cfg (initSession y m)
  | step (s : Session) (op : Op) : Reachable cfg s → Reachable cfg (applyOp cfg s op)

/-- The per-tick mutual exclusion of the switching and
breaking-line-of-sight sub-states. -/
def mutexInv (s : Session) : Prop :=
  ¬(s.switching = true ∧ s.breakingLOS = true)

lemma mutexInv_lockOff (s : Session) : mutexInv (TargetLockOff s).1 := by
  simp [mutexInv, TargetLockOff]

lemma mutexInv_lockOn (cfg : Config) (t : Actor) (s : Session) :
    mutexInv (lockOn cfg t s) := by
  simp [mutexInv, lockOn]

lemma mutexInv_acquire (cfg : Config) (world : List Actor) (s : Session)
    (h : mutexInv s) : mutexInv (acquire cfg world s).1 := by
  cases hf : FindNearestTarget (candidatesOf cfg world) with
  | none => simpa [acquire, hf] using h
  | some t =>
    have := mutexInv_lockOn cfg t s
    simpa [acquire, hf] using this

lemma mutexInv_targetActor (cfg : Config) (world : List Actor)
    (visible : Actor → Bool) (s : Session) (h : mutexInv s) :
    mutexInv (TargetActor cfg world visible s).1 := by
  cases ht : s.target with
  | none =>
    have := mutexInv_acquire cfg world s h
    simpa [TargetActor, ht] using this
  | some t =>
    by_cases hl : s.locked = true
    · by_cases hv : validTarget world t ∧ visible t = true
      · simpa [TargetActor, ht, hl, hv] using h
      · have := mutexInv_acquire cfg world (TargetLockOff s).1 (mutexInv_lockOff s)
        simpa [TargetActor, ht, hl, hv] using this
    · have := mutexInv_acquire cfg world s h
      simpa [TargetActor, ht, hl] using this

lemma mutexInv_axis (cfg : Config) (world : List Actor) (axisValue delta : ℚ)
    (s : Session) (h : mutexInv s) :
    mutexInv (TargetActorWithAxisInput cfg world axisValue delta s).1 := by
  cases ht : s.target with
  | none => simpa [TargetActorWithAxisInput, ht] using h
  | some cur =>
    by_cases hc : s.locked = true ∧ s.switchTimer = none ∧
        cfg.switchThreshold < |axisValue * delta|
    · cases hb : bestByAngle (world.filter (fun a => a.targetable && a ≠ cur))
          (decide (0 < axisValue)) cfg.switchThreshold with
      | none =>
        simp only [TargetActorWithAxisInput, ht, if_pos hc, hb]
        exact h
      | some t =>
        simp only [TargetActorWithAxisInput, ht, if_pos hc, hb]
        simp [mutexInv]
    · simp only [TargetActorWithAxisInput, ht, if_neg hc]
      exact h

lemma mutexInv_tick (cfg : Config) (world : List Actor) (v : Bool) (dt : ℚ)
    (s : Session) (h : mutexInv s) : mutexInv (TickComponent cfg world v dt s).1 := by
  by_cases hl : s.locked = true
  case neg => simpa [TickComponent, hl] using h
  cases ht : s.target with
  | none => simpa [TickComponent, hl, ht] using h
  | some t =>
    by_cases hv : validTarget world t
    case neg => simpa [TickComponent, hl, ht, hv] using mutexInv_lockOff s
    by_cases ho : outOfReach cfg t
    · simpa [TickComponent, hl, ht, hv, ho] using mutexInv_lockOff s
    by_cases hvis : v = false
    · by_cases hrem : (s.losTimer.getD cfg.losBreakDelay) - dt ≤ 0
      · simpa [TickComponent, hl, ht, hv, ho, hvis, hrem] using mutexInv_lockOff s
      · simp [TickComponent, hl, ht, hv, ho, hvis, hrem, mutexInv]
    · cases hst : s.switchTimer with
      | none => simp [TickComponent, hl, ht, hv, ho, hvis, hst, mutexInv]
      | some r =>
        by_cases hrd : r - dt ≤ 0
        · simp [TickComponent, hl, ht, hv, ho, hvis, hst, hrd, mutexInv]
        · simp [TickComponent, hl, ht, hv, ho, hvis, hst, hrd, mutexInv]

/-- C4: in every reachable session the switching flag and the
breaking-line-of-sight flag are never both set. -/
theorem switching_breaking_mutually_exclusive (cfg : Config) (s : Session)
    (h : Reachable cfg s) : ¬(s.switching = true ∧ s.breakingLOS = true) := by
  induction h with
  | init y m => simp [initSession]
  | step s' op _ ih =>
    cases op with
    | lock world visible => exact mutexInv_targetActor cfg world visible s' ih
    | unlock => exact mutexInv_lockOff s'
    | axis world av d => exact mutexInv_axis cfg world av d s' ih
    | tickOp world v dt => exact mutexInv_tick cfg world v dt s' ih

/-- Concrete instance of C4: the state reached by locking from spawn keeps
the two sub-state flags mutually exclusive. -/
theorem switching_breaking_mutually_exclusive_witness :
    ¬((applyOp sampleCfg (initSession false false)
        (Op.lock [actorB] (fun _ => true))).switching = true ∧
      (applyOp sampleCfg (initSession false false)
        (Op.lock [actorB] (fun _ => true))).breakingLOS = true) :=
  switching_breaking_mutually_exclusive sampleCfg _
    (Reachable.step (initSession false false) (Op.lock [actorB] (fun _ => true))
      (Reachable.init false false))

/-! ### Line-of-sight debounce -/

lemma tickRun_unlocked (cfg : Config) (world : List Actor)
    (l : List (Bool × ℚ)) (s : Session) (h : s.locked = false) :
    tickRun cfg world l s = (s, []) := by
  induction l with
  | nil => rfl
  | cons p rest ih =>
    cases p with
    | mk v dt => simp [tickRun, TickComponent, h, ih]

lemma tickRun_append (cfg : Config) (world : List Actor)
    (l1 l2 : List (Bool × ℚ)) (s : Session) :
    tickRun cfg world (l1 ++ l2) s =
      ((tickRun cfg world l2 (tickRun cfg world l1 s).1).1,
       (tickRun cfg world l1 s).2 ++ (tickRun cfg world l2 (tickRun cfg world l1 s).1).2) := by
  induction l1 generalizing s with
  | nil => simp [tickRun]
  | cons p rest ih =>
    cases p with
    | mk v dt => simp [tickRun, ih, List.append_assoc]

/-- The session during an active line-of-sight break with remaining
countdown `r`. -/
def breakingState (s : Session) (r : ℚ) : Session :=
  { s with
    losTimer := some r, breakingLOS := true, switching := false, switchTimer := none }

lemma breakingState_breakingState (s : Session) (r1 r2 : ℚ) :
    breakingState (breakingState s r1) r2 = breakingState s r2 := rfl

lemma tick_invisible_step (cfg : Config) (world : List Actor) (dt : ℚ)
    (s : Session) (t : Actor) (hl : s.locked = true) (ht : s.target = some t)
    (hv : validTarget world t) (ho : ¬ outOfReach cfg t)
    (hrem : ¬ ((s.losTimer.getD cfg.losBreakDelay) - dt ≤ 0)) :
    TickComponent cfg world false dt s =
      (breakingState s ((s.losTimer.getD cfg.losBreakDelay) - dt), []) := by
  simp [TickComponent, breakingState, hl, ht, hv, ho, hrem]

lemma tick_invisible_timeout (cfg : Config) (world : List Actor) (dt : ℚ)
    (s : Session) (t : Actor) (hl : s.locked = true) (ht : s.target = some t)
    (hv : validTarget world t) (ho : ¬ outOfReach cfg t)
    (hrem : (s.losTimer.getD cfg.losBreakDelay) - dt ≤ 0) :
    TickComponent cfg world false dt s = TargetLockOff s := by
  simp [TickComponent, hl, ht, hv, ho, hrem]

lemma tick_visible_keeps (cfg : Config) (world : List Actor) (dt : ℚ)
    (s : Session) (t : Actor) (hl : s.locked = true) (ht : s.target = some t)
    (hv : validTarget world t) (ho : ¬ outOfReach cfg t) :
    (TickComponent cfg world true dt s).1.locked = true ∧
    (TickComponent cfg world true dt s).1.target = some t ∧
    (TickComponent cfg world true dt s).1.breakingLOS = false ∧
    (TickComponent cfg world true dt s).1.losTimer = none ∧
    (TickComponent cfg world true dt s).2 = [] := by
  cases hst : s.switchTimer with
  | none => simp [TickComponent, hl, ht, hv, ho, hst]
  | some r =>
    by_cases hrd : r - dt ≤ 0
    · simp [TickComponent, hl, ht, hv, ho, hst, hrd]
    · simp [TickComponent, hl, ht, hv, ho, hst, hrd]

lemma tickRun_invisible_hold (cfg : Config) (world : List Actor) (t : Actor)
    (dts : List ℚ) :
    ∀ (s : Session) (r : ℚ), s.locked = true → s.target = some t →
      validTarget world t → ¬ outOfReach cfg t → s.losTimer = some r →
      s.breakingLOS = true → s.switching = false → s.switchTimer = none →
      (∀ d ∈ dts, 0 ≤ d) → dts.sum < r →
      tickRun cfg world (dts.map (fun d => (false, d))) s =
        (breakingState s (r - dts.sum), []) := by
  induction dts with
  | nil =>
    intro s r hl ht hv ho hlos hbk hsw hst hnn hsum
    simp only [List.map_nil, List.sum_nil, sub_zero]
    show (s, ([] : List Event)) = _
    cases s
    simp_all [breakingState]
  | cons d rest ih =>
    intro s r hl ht hv ho hlos hbk hsw hst hnn hsum
    have hd : 0 ≤ d := hnn d (List.mem_cons_self _ _)
    have hrestnn : ∀ x ∈ rest, 0 ≤ x := fun x hx => hnn x (List.mem_cons_of_mem _ hx)
    have hrest0 : 0 ≤ rest.sum := List.sum_nonneg hrestnn
    have hsum' : d + rest.sum < r := by simpa [List.sum_cons] using hsum
    have hrem : ¬ ((s.losTimer.getD cfg.losBreakDelay) - d ≤ 0) := by
      rw [hlos]
      simp only [Option.getD_some]
      intro hcon
      linarith
    have hstep := tick_invisible_step cfg world d s t hl ht hv ho hrem
    rw [hlos] at hstep
    simp only [Option.getD_some] at hstep
    simp only [List.map_cons, tickRun, hstep]
    rw [ih (breakingState s (r - d)) (r - d) hl ht hv ho rfl rfl rfl rfl
      hrestnn (by linarith)]
    rw [breakingState_breakingState]
    simp [List.sum_cons, sub_sub]

lemma tickRun_invisible_timeout (cfg : Config) (world : List Actor) (t : Actor)
    (dts : List ℚ) :
    ∀ (s : Session) (r : ℚ), s.locked = true → s.target = some t →
      validTarget world t → ¬ outOfReach cfg t → s.losTimer = some r →
      dts ≠ [] → (∀ d ∈ dts, 0 ≤ d) → r ≤ dts.sum →
      (tickRun cfg world (dts.map (fun d => (false, d))) s).1.locked = false ∧
      (tickRun cfg world (dts.map (fun d => (false, d))) s).2 = [Event.lockedOff t] := by
  induction dts with
  | nil =>
    intro s r _ _ _ _ _ hne _ _
    exact absurd rfl hne
  | cons d rest ih =>
    intro s r hl ht hv ho hlos hne hnn hsum
    have hd : 0 ≤ d := hnn d (List.mem_cons_self _ _)
    have hrestnn : ∀ x ∈ rest, 0 ≤ x := fun x hx => hnn x (List.mem_cons_of_mem _ hx)
    by_cases hrem : r - d ≤ 0
    · have hstep := tick_invisible_timeout cfg world d s t hl ht hv ho
        (by rw [hlos]; simpa using hrem)
      simp only [List.map_cons, tickRun, hstep]
      rw [tickRun_unlocked cfg world _ _ rfl]
      exact ⟨rfl, by simp [TargetLockOff, ht, hl]⟩
    · have hrestne : rest ≠ [] := by
        intro h0
        rw [h0] at hsum
        simp only [List.sum_cons, List.sum_nil, add_zero] at hsum
        exact hrem (by linarith)
      have hstep := tick_invisible_step cfg world d s t hl ht hv ho
        (by rw [hlos]; simpa using hrem)
      rw [hlos] at hstep
      simp only [Option.getD_some] at hstep
      simp only [List.map_cons, tickRun, hstep]
      have hsum2 : r - d ≤ rest.sum := by
        rw [List.sum_cons] at hsum
        linarith
      have hrec := ih (breakingState s (r - d)) (r - d) hl ht hv ho rfl
        hrestne hrestnn hsum2
      exact ⟨hrec.1, by simpa using hrec.2⟩

/-- C3: while locked, losing line of sight for a total duration strictly
below `BreakLineOfSightDelay` and then recovering it leaves the session
locked on the same target with no event fired and the break sub-state
cleared; losing line of sight for a total duration reaching
`BreakLineOfSightDelay` fires the locked-off event exactly once and unlocks. -/
theorem lineOfSight_debounce (cfg : Config) (world : List Actor) (t : Actor)
    (dts : List ℚ) (dtv : ℚ) (s : Session)
    (hl : s.locked = true) (ht : s.target = some t)
    (hv : validTarget world t) (ho : ¬ outOfReach cfg t)
    (hlos : s.losTimer = none) (hnn : ∀ d ∈ dts, 0 ≤ d) :
    (dts.sum < cfg.losBreakDelay →
      (tickRun cfg world ((dts.map (fun d => (false, d))) ++ [(true, dtv)]) s).1.locked = true ∧
      (tickRun cfg world ((dts.map (fun d => (false, d))) ++ [(true, dtv)]) s).1.target = some t ∧
      (tickRun cfg world ((dts.map (fun d => (false, d))) ++ [(true, dtv)]) s).1.breakingLOS = false ∧
      (tickRun cfg world ((dts.map (fun d => (false, d))) ++ [(true, dtv)]) s).1.losTimer = none ∧
      (tickRun cfg world ((dts.map (fun d => (false, d))) ++ [(true, dtv)]) s).2 = []) ∧
    (dts ≠ [] → cfg.losBreakDelay ≤ dts.sum →
      (tickRun cfg world (dts.map (fun d => (false, d))) s).1.locked = false ∧
      (tickRun cfg world (dts.map (fun d => (false, d))) s).2 = [Event.lockedOff t]) := by
  constructor
  · intro hsum
    cases dts with
    | nil =>
      have hkeep := tick_visible_keeps cfg world dtv s t hl ht hv ho
      simp only [List.map_nil, List.nil_append, tickRun]
      refine ⟨hkeep.1, hkeep.2.1, hkeep.2.2.1, hkeep.2.2.2.1, by simp [hkeep.2.2.2.2]⟩
    | cons d rest =>
      have hd : 0 ≤ d := hnn d (List.mem_cons_self _ _)
      have hrestnn : ∀ x ∈ rest, 0 ≤ x := fun x hx => hnn x (List.mem_cons_of_mem _ hx)
      have hrest0 : 0 ≤ rest.sum := List.sum_nonneg hrestnn
      have hsum' : d + rest.sum < cfg.losBreakDelay := by simpa [List.sum_cons] using hsum
      have hrem : ¬ ((s.losTimer.getD cfg.losBreakDelay) - d ≤ 0) := by
        rw [hlos]
        simp only [Option.getD_none]
        intro hcon
        linarith
      have hstep := tick_invisible_step cfg world d s t hl ht hv ho hrem
      rw [hlos] at hstep
      simp only [Option.getD_none] at hstep
      have hpre : tickRun cfg world (((d :: rest).map (fun x => (false, x)))) s =
          (breakingState s (cfg.losBreakDelay - d - rest.sum), []) := by
        simp only [List.map_cons, tickRun, hstep]
        rw [tickRun_invisible_hold cfg world t rest
          (breakingState s (cfg.losBreakDelay - d)) (cfg.losBreakDelay - d)
          hl ht hv ho rfl rfl rfl rfl hrestnn (by linarith)]
        rw [breakingState_breakingState]
        simp [sub_sub]
      have hkeep := tick_visible_keeps cfg world dtv
        (breakingState s (cfg.losBreakDelay - d - rest.sum)) t hl ht hv ho
      rw [tickRun_append, hpre]
      simp only [tickRun, List.append_nil]
      refine ⟨hkeep.1, hkeep.2.1, hkeep.2.2.1, hkeep.2.2.2.1, by simp [hkeep.2.2.2.2]⟩
  · intro hne hsum
    cases dts with
    | nil => exact absurd rfl hne
    | cons d rest =>
      have hd : 0 ≤ d := hnn d (List.mem_cons_self _ _)
      have hrestnn : ∀ x ∈ rest, 0 ≤ x := fun x hx => hnn x (List.mem_cons_of_mem _ hx)
      by_cases hrem : cfg.losBreakDelay - d ≤ 0
      · have hstep := tick_invisible_timeout cfg world d s t hl ht hv ho
          (by rw [hlos]; simpa using hrem)
        simp only [List.map_cons, tickRun, hstep]
        rw [tickRun_unlocked cfg world _ _ rfl]
        exact ⟨rfl, by simp [TargetLockOff, ht, hl]⟩
      · have hrestne : rest ≠ [] := by
          intro h0
          rw [h0] at hsum
          simp only [List.sum_cons, List.sum_nil, add_zero] at hsum
          exact hrem (by linarith)
        have hstep := tick_invisible_step cfg world d s t hl ht hv ho
          (by rw [hlos]; simpa using hrem)
        rw [hlos] at hstep
        simp only [Option.getD_none] at hstep
        have hsum2 : cfg.losBreakDelay - d ≤ rest.sum := by
          rw [List.sum_cons] at hsum
          linarith
        have hrec := tickRun_invisible_timeout cfg world t rest
          (breakingState s (cfg.losBreakDelay - d)) (cfg.losBreakDelay - d)
          hl ht hv ho rfl hrestne hrestnn hsum2
        simp only [List.map_cons, tickRun, hstep]
        exact ⟨hrec.1, by simpa using hrec.2⟩

/-- Concrete instance of C3: with a 5-unit break delay, two invisible ticks
of 2 units each followed by a visible tick keep the lock with no events;
two invisible ticks of 3 units each fire exactly one locked-off event. -/
theorem lineOfSight_debounce_witness :
    (tickRun sampleCfg [actorB] [(false, 2), (false, 2), (true, 1)]
      (lockOn sampleCfg actorB (initSession false false))).2 = [] ∧
    (tickRun sampleCfg [actorB] [(false, 3), (false, 3)]
      (lockOn sampleCfg actorB (initSession false false))).2 =
      [Event.lockedOff actorB] := by
  constructor
  · have h := (lineOfSight_debounce sampleCfg [actorB] actorB [2, 2] 1
      (lockOn sampleCfg actorB (initSession false false)) rfl rfl (by decide)
      (by decide) rfl (by decide)).1 (by norm_num [sampleCfg])
    simpa using h.2.2.2.2
  · have h := (lineOfSight_debounce sampleCfg [actorB] actorB [3, 3] 1
      (lockOn sampleCfg actorB (initSession false false)) rfl rfl (by decide)
      (by decide) rfl (by decide)).2 (by decide) (by norm_num [sampleCfg])
    simpa using h.2

end TargetSystem
